import Mathlib

/-!
Verification of the BIRT Convert core: a shallow embedding of the
CSV/XLSX ingestion and decimal-hours-to-clock conversion pipeline
(`csvParser.ts` and `xlsxParser.ts`), with theorems settling the frozen
claims about it.

Modelling conventions:
* JS numbers are embedded as exact rationals (`ℚ`).  Every claim settled
  here either uses dyadic constants on which IEEE doubles are exact, or is
  invariant under the embedding (the sign-symmetry and idempotence claims
  compare two runs of the same arithmetic).
* A JS object (a `Record<string, unknown>` row, a cell map, a `Map`) is an
  insertion-ordered association list; property write updates an existing
  key in place and appends a fresh one, as JS objects and `Map` do.
* Fallible code (`throw`) is embedded with `Except String`.
-/

namespace BirtConvert

/-- A scalar cell value: string, number, or null/undefined-like absence of a
value (`null` covers both JS `null` and the `defval: null` fill). -/
inductive Value where
  | str (s : String)
  | num (q : ℚ)
  | null
deriving DecidableEq, Repr

/-- A parsed row (`Record<string, unknown>`): insertion-ordered association
list from column name to scalar value. -/
abbrev Row := List (String × Value)

/-- JS object property write `obj[k] = v`: update the first entry with key
`k` in place, or append a new entry when `k` is absent. -/
def setKey : Row → String → Value → Row
  | [], k, v => [(k, v)]
  | (k1, v1) :: rest, k, v =>
      if k1 = k then (k1, v) :: rest else (k1, v1) :: setKey rest k v

/-- JS object property read `obj[k]`: `none` models `undefined`. -/
def getVal : Row → String → Option Value
  | [], _ => none
  | (k1, v1) :: rest, k => if k1 = k then some v1 else getVal rest k

/-- `Math.round`: round half toward positive infinity. -/
def jsRound (q : ℚ) : ℤ := ⌊q + 1 / 2⌋

/-- `String.prototype.padStart(2, "0")`. -/
def padStart2 (s : String) : String :=
  if s.length < 2 then String.mk (List.replicate (2 - s.length) '0') ++ s else s

/-- `Number.prototype.toString()` restricted to integral values, which is all
`decimalToTime` ever stringifies. -/
def jsIntStr (n : ℤ) : String :=
  if n < 0 then "-" ++ Nat.repr n.natAbs else Nat.repr n.natAbs

/-- `decimalToTime` (csvParser.ts): convert decimal hours to hh:mm format.
`hours = Math.floor(abs)`, `minutes = Math.round((abs - hours) * 60)`,
both zero-padded to two digits, with a sign prefix for negative input. -/
def decimalToTime (decimal : ℚ) : String :=
  let absDecimal := |decimal|
  let hours : ℤ := ⌊absDecimal⌋
  let minutes : ℤ := jsRound ((absDecimal - hours) * 60)
  let sign := if decimal < 0 then "-" else ""
  sign ++ padStart2 (jsIntStr hours) ++ ":" ++ padStart2 (jsIntStr minutes)

/-- `Map.get` on the header-count map of `ensureUniqueHeaders`. -/
def lookupCount : List (String × Nat) → String → Option Nat
  | [], _ => none
  | (k1, n) :: rest, k => if k1 = k then some n else lookupCount rest k

/-- `Map.set` on the header-count map: update in place or append. -/
def setCount : List (String × Nat) → String → Nat → List (String × Nat)
  | [], k, n => [(k, n)]
  | (k1, n1) :: rest, k, n =>
      if k1 = k then (k1, n) :: rest else (k1, n1) :: setCount rest k n

/-- The loop body of `ensureUniqueHeaders`, threading the `headerCounts` map. -/
def ensureUniqueHeadersGo (headerCounts : List (String × Nat)) :
    List String → List String
  | [] => []
  | header :: rest =>
      match lookupCount headerCounts header with
      | some n =>
          (header ++ " (" ++ Nat.repr (n + 1) ++ ")") ::
            ensureUniqueHeadersGo (setCount headerCounts header (n + 1)) rest
      | none => header :: ensureUniqueHeadersGo (setCount headerCounts header 1) rest

/-- `ensureUniqueHeaders` (csvParser.ts): append 1-based occurrence counts,
starting at `(2)`, to repeated header names. -/
def ensureUniqueHeaders (headers : List String) : List String :=
  ensureUniqueHeadersGo [] headers

/-- Character-list prefix test (needle, haystack), auxiliary to the substring
test below. -/
def charsStartWith : List Char → List Char → Bool
  | [], _ => true
  | _ :: _, [] => false
  | a :: as, b :: bs => a == b && charsStartWith as bs

/-- Character-list substring occurrence test (needle fixed, haystack scanned). -/
def charsContain (needle : List Char) : List Char → Bool
  | [] => needle.isEmpty
  | c :: rest => charsStartWith needle (c :: rest) || charsContain needle rest

/-- `String.prototype.includes`: `strIncludes s t` is `s.includes(t)`. -/
def strIncludes (s t : String) : Bool := charsContain t.data s.data

/-- The fixed keyword list of `detectDecimalHourColumns`. -/
def timeKeywords : List String :=
  ["hour", "hrs", "time", "duration", "worked", "logged", "actual", "planned",
   "scheduled", "billable", "non-billable", "productive", "non-productive", "hours"]

/-- `values.reduce((a, b) => Math.max(a, b), -Infinity)`: `none` models the
untouched `-Infinity` seed of an empty list. -/
def reduceMax (values : List ℚ) : Option ℚ :=
  values.foldl (fun a b => match a with | none => some b | some x => some (max x b)) none

/-- `values.reduce((a, b) => Math.min(a, b), Infinity)`. -/
def reduceMin (values : List ℚ) : Option ℚ :=
  values.foldl (fun a b => match a with | none => some b | some x => some (min x b)) none

/-- `min >= -1000 && max <= 1000`; with the infinite reduce seeds an empty
list passes both bounds vacuously, exactly as in the source. -/
def isReasonableRangeOf (values : List ℚ) : Bool :=
  (match reduceMin values with | some m => decide (-1000 ≤ m) | none => true) &&
  (match reduceMax values with | some m => decide (m ≤ 1000) | none => true)

/-- `row[header] != null` filter of the detector: drops both absent keys
(`undefined`) and `null` cells, keeps everything else. -/
def nonNullAt (row : Row) (header : String) : Option Value :=
  match getVal row header with
  | some Value.null => none
  | none => none
  | some v => some v

/-- `detectDecimalHourColumns` (csvParser.ts): suggest columns whose name
carries a time keyword or whose non-null values are all numeric, provided at
least 80 percent of non-null values are numeric and the numeric values lie
in [-1000, 1000]. -/
def detectDecimalHourColumns (headers : List String) (data : List Row) :
    List String :=
  headers.foldl
    (fun suggestions header =>
      let headerLower := header.toLower
      let hasTimeKeyword := timeKeywords.any (fun keyword => strIncludes headerLower keyword)
      let columnValues := data.filterMap (fun row => nonNullAt row header)
      if columnValues.length = 0 then suggestions
      else
        let numericValues := columnValues.filterMap
          (fun v => match v with | Value.num q => some q | _ => none)
        let numericRatio : ℚ := (numericValues.length : ℚ) / (columnValues.length : ℚ)
        if numericRatio < 4 / 5 then suggestions
        else
          let isReasonableRange := isReasonableRangeOf numericValues
          if hasTimeKeyword && isReasonableRange then suggestions ++ [header]
          else if !hasTimeKeyword && isReasonableRange && decide (numericRatio = 1) then
            suggestions ++ [header]
          else suggestions)
    []

/-- One iteration of the inner `for (const column of columnsToConvert)` loop
of `convertCSVColumns`, acting on the row being rebuilt and on the shared
`newHeaders` accumulator. -/
def convertRowStep (keepOriginal : Bool) (acc : Row × List String) (column : String) :
    Row × List String :=
  match getVal acc.1 column with
  | some (Value.num q) =>
      let convertedValue := decimalToTime q
      if keepOriginal then
        let newColumnName := column ++ "_hhmm"
        (setKey acc.1 newColumnName (Value.str convertedValue),
         if newColumnName ∈ acc.2 then acc.2 else acc.2 ++ [newColumnName])
      else (setKey acc.1 column (Value.str convertedValue), acc.2)
  | _ => acc

/-- `convertCSVColumns` (csvParser.ts): map over the rows, converting each
numeric value at a selected column; `keepOriginal` writes the clock string
under `"<column>_hhmm"` instead of overwriting, recording each derived header
once in `newHeaders`. -/
def convertCSVColumns (data : List Row) (columnsToConvert : List String)
    (keepOriginal : Bool) : List Row × List String :=
  data.foldl
    (fun acc row =>
      let out := columnsToConvert.foldl (convertRowStep keepOriginal) (row, acc.2)
      (acc.1 ++ [out.1], out.2))
    ([], [])

/-- The header list `convertToCSV` (and `convertToXLSX`) hands the serializer:
derived headers, when present, are appended after the existing ones. -/
def convertToCSVHeaders (headers additionalHeaders : List String) : List String :=
  if additionalHeaders.length > 0 then headers ++ additionalHeaders else headers

/-- The effect of one `keepOriginal = false` loop iteration on the row alone
(the `newHeaders` accumulator is untouched on that path). -/
def replaceStep (r : Row) (column : String) : Row :=
  match getVal r column with
  | some (Value.num q) => setKey r column (Value.str (decimalToTime q))
  | _ => r

/-- The cell at column `c` of row `r` does not hold a numeric value (it is a
string, null, or absent): on such cells the codec never fires. -/
def NotNumAt (r : Row) (c : String) : Prop :=
  ∀ q : ℚ, getVal r c ≠ some (Value.num q)

/-- The effect of one `keepOriginal = true` loop iteration on the row alone:
a numeric value at the selected column writes the clock string under the
derived `"<column>_hhmm"` key and leaves the original untouched. -/
def keepStep (r : Row) (column : String) : Row :=
  match getVal r column with
  | some (Value.num q) => setKey r (column ++ "_hhmm") (Value.str (decimalToTime q))
  | _ => r

/-- `typeof row[c] === "number"`. -/
def isNumAt (r : Row) (c : String) : Bool :=
  match getVal r c with
  | some (Value.num _) => true
  | _ => false

/-- The effect of one `keepOriginal = true` loop iteration on the shared
`newHeaders` accumulator alone: record the derived name once when the
conversion fires. -/
def hdrStep (r : Row) (h : List String) (column : String) : List String :=
  if isNumAt r column then
    (if (column ++ "_hhmm") ∈ h then h else h ++ [column ++ "_hhmm"])
  else h

/-- Append each entry of `l` to `acc` unless already present (the
`includes`-guarded push used for `newHeaders`). -/
def dedupAppend (acc : List String) (l : List String) : List String :=
  l.foldl (fun a x => if x ∈ a then a else a ++ [x]) acc

/-- The derived header names one row contributes, in selection order: one
`"<c>_hhmm"` per selected column holding a numeric value in the row. -/
def rowDerivedNames (cols : List String) (r : Row) : List String :=
  (cols.filter (fun c => isNumAt r c)).map (fun c => c ++ "_hhmm")

/-- The full `newHeaders` list `keepOriginal = true` conversion produces:
first occurrences of derived names in row-major, selection-order scan. -/
def derivedHeadersSpec (data : List Row) (cols : List String) : List String :=
  dedupAppend [] ((data.map (fun r => rowDerivedNames cols r)).flatten)

/-! ### Spreadsheet ingestion (xlsxParser.ts) -/

/-- A raw cell grid, as `XLSX.utils.sheet_to_json(ws, {header: 1, defval:
null, raw: true})` returns it. -/
abbrev Grid := List (List Value)

/-- `cell == null || cell === ''`: the emptiness test used for header
skipping, non-empty-cell counting and blank-row dropping. -/
def isEmptyCell : Value → Bool
  | Value.null => true
  | Value.str "" => true
  | _ => false

/-- `typeof cell === 'string'`. -/
def isStringCell : Value → Bool
  | Value.str _ => true
  | _ => false

/-- The report-header marker substrings. -/
def reportMarkers : List String := ["Time Period", "Executed on", "Query"]

/-- The inner marker loop of `hasReportHeader` on one cell: add every marker
occurring in a string cell to the found set (a duplicate-free list, modelling
the JS `Set`). -/
def addMarkersOfCell (found : List String) (cell : Value) : List String :=
  match cell with
  | Value.str s =>
      reportMarkers.foldl
        (fun fnd marker =>
          if strIncludes s marker && !(fnd.contains marker) then fnd ++ [marker]
          else fnd)
        found
  | _ => found

/-- The nested row/cell scan of `hasReportHeader` over the first 6 rows. -/
def foundMarkersIn (rows : Grid) : List String :=
  (rows.take 6).foldl (fun found row => row.foldl addMarkersOfCell found) []

/-- `hasReportHeader` (xlsxParser.ts): at least 2 distinct markers occur as
substrings of string cells within the first 6 rows. -/
def hasReportHeader (rows : Grid) : Bool :=
  decide (2 ≤ (foundMarkersIn rows).length)

/-- The row test of `findColumnHeaderRow`: at least 5 non-empty cells, and
string-typed cells (empty strings included, exactly as the source counts
them) at least 60 percent of the non-empty count. -/
def columnHeaderRowQualifies (row : List Value) : Bool :=
  let nonEmptyCells := (row.filter (fun cell => !(isEmptyCell cell))).length
  let stringCells := (row.filter (fun cell => isStringCell cell)).length
  decide (5 ≤ nonEmptyCells) &&
    decide ((3 : ℚ) / 5 ≤ (stringCells : ℚ) / (nonEmptyCells : ℚ))

/-- `findColumnHeaderRow` (xlsxParser.ts): first qualifying row index in
`3 ≤ i < min(length, 15)`, defaulting to 6. -/
def findColumnHeaderRow (rows : Grid) : Nat :=
  match (List.range' 3 (min rows.length 15 - 3)).find?
      (fun i => columnHeaderRowQualifies (rows.getD i [])) with
  | some i => i
  | none => 6

/-- `detectHeaderRow` (xlsxParser.ts). -/
def detectHeaderRow (rows : Grid) : Nat :=
  if rows.length = 0 then 0
  else if hasReportHeader rows then findColumnHeaderRow rows
  else 0

/-- A declared merge region (`worksheet["!merges"]` entry): start/end row and
column, all zero-based and inclusive, as in `{s: {r, c}, e: {r, c}}`. -/
structure MergeRange where
  sr : Nat
  sc : Nat
  er : Nat
  ec : Nat
deriving DecidableEq, Repr

/-- `Set.add` over a column list (duplicate-free list model of the JS `Set`). -/
def setAddAll (s : List Nat) (cols : List Nat) : List Nat :=
  cols.foldl (fun acc col => if acc.contains col then acc else acc ++ [col]) s

/-- `getMergedColumns` (xlsxParser.ts): every column of a merge region
intersecting the header row except the region's first column. -/
def getMergedColumns (merges : List MergeRange) (headerRowIndex : Nat) : List Nat :=
  merges.foldl
    (fun mergedCols merge =>
      if merge.sr ≤ headerRowIndex ∧ headerRowIndex ≤ merge.er then
        setAddAll mergedCols (List.range' (merge.sc + 1) (merge.ec - merge.sc))
      else mergedCols)
    []

/-- A worksheet object: its cell entries (A1-style key to cached value) and
its `!merges` metadata.  The `!`-prefixed bookkeeping keys of a real
worksheet object are carried separately from the cell keys; the key filter
of `findMissingDataColumns` is still applied below. -/
structure Worksheet where
  cells : List (String × Value)
  merges : List MergeRange
deriving DecidableEq, Repr

/-- Decimal digit run to a number. -/
def natOfDigits (ds : List Char) : Nat :=
  ds.foldl (fun a c => a * 10 + (c.toNat - 48)) 0

/-- Column letters to a zero-based column index (A is 0, Z is 25, AA is 26). -/
def colIndexOfLetters (ls : List Char) : Nat :=
  ls.foldl (fun a c => a * 26 + (c.toNat - 64)) 0 - 1

/-- A1-style address to zero-based (row, column). -/
def decodeAddr (key : String) : Nat × Nat :=
  let letters := key.data.takeWhile (fun c => !(c.isDigit))
  let digits := key.data.dropWhile (fun c => !(c.isDigit))
  (natOfDigits digits - 1, colIndexOfLetters letters)

/-- `XLSX.utils.sheet_to_json(ws, {header: 1, defval: null, raw: true})`
(external dependency, modelled): the dense grid over the sheet's bounding
box, `null` filling the gaps; the range origin is fixed at A1, which is what
the calling code assumes of its inputs. -/
def sheetToJson (cells : List (String × Value)) : Grid :=
  match cells with
  | [] => []
  | _ =>
      let coords := cells.map (fun kv => (decodeAddr kv.1, kv.2))
      let maxRow := (coords.map (fun p => p.1.1)).foldl max 0
      let maxCol := (coords.map (fun p => p.1.2)).foldl max 0
      (List.range (maxRow + 1)).map
        (fun r =>
          (List.range (maxCol + 1)).map
            (fun c =>
              match coords.find? (fun p => p.1.1 == r && p.1.2 == c) with
              | some p => p.2
              | none => Value.null))

/-- `key.replace(/[0-9]/g, '')`. -/
def stripDigits (s : String) : String :=
  String.mk (s.data.filter (fun c => !(c.isDigit)))

/-- The per-column cell counter of `findMissingDataColumns`, a plain JS
object: bump in place or append. -/
def bumpCount : List (String × Nat) → String → List (String × Nat)
  | [], k => [(k, 1)]
  | (k1, n) :: rest, k =>
      if k1 = k then (k1, n + 1) :: rest else (k1, n) :: bumpCount rest k

/-- JS truthiness of a cached cell value (`headerCell.v`). -/
def truthyVal : Value → Bool
  | Value.str s => !(s == "")
  | Value.num q => !(q == 0)
  | Value.null => false

/-- `Number.prototype.toString()` (external builtin, modelled for the
terminating-decimal rationals that doubles are): integer digits, then a
minimal fraction part when the value is not integral. -/
def jsNumRepr (q : ℚ) : String :=
  if q.den = 1 then jsIntStr q.num
  else
    match (List.range 40).find? (fun k => 10 ^ k % q.den = 0) with
    | some k =>
        let scaled := q.num.natAbs * (10 ^ k / q.den)
        let ip := scaled / 10 ^ k
        let fp := scaled % 10 ^ k
        let fpStr := Nat.repr fp
        (if q.num < 0 then "-" else "") ++ Nat.repr ip ++ "." ++
          String.mk (List.replicate (k - fpStr.length) '0') ++ fpStr
    | none => "?"

/-- `String(cell)` on a scalar cell value. -/
def jsString (v : Value) : String :=
  match v with
  | Value.str s => s
  | Value.num q => jsNumRepr q
  | Value.null => "null"

/-- `findMissingDataColumns` (xlsxParser.ts): columns whose cell count is
exactly 1 while some column has more than one populated cell, named by their
header cell when it is truthy and by "Column X" otherwise.  (`Math.max` of
no values is -Infinity; the `maxCount > 1` guard makes the 0 seed used here
coincide.) -/
def findMissingDataColumns (ws : Worksheet) (headerRowIndex : Nat) : List String :=
  let cellKeys := (ws.cells.map Prod.fst).filter (fun k => !(k.startsWith "!"))
  let columnCounts := cellKeys.foldl (fun counts key => bumpCount counts (stripDigits key)) []
  let maxCount := (columnCounts.map Prod.snd).foldl max 0
  if 1 < maxCount then
    columnCounts.foldl
      (fun missingColumns kv =>
        if kv.2 = 1 then
          match getVal ws.cells (kv.1 ++ Nat.repr (headerRowIndex + 1)) with
          | some v =>
              if truthyVal v then missingColumns ++ [jsString v]
              else missingColumns ++ ["Column " ++ kv.1]
          | none => missingColumns ++ ["Column " ++ kv.1]
        else missingColumns)
      []
  else []

/-- The header-extraction walk of `parseXLSXSheet`: skip merge-shadowed
columns, skip null/blank header cells, stringify-and-trim the rest,
recording each retained original column index. -/
def extractHeadersGo (mergedColumns : List Nat) :
    Nat → List String × List Nat → List Value → List String × List Nat
  | _, acc, [] => acc
  | index, acc, cell :: rest =>
      extractHeadersGo mergedColumns (index + 1)
        (if mergedColumns.contains index then acc
         else if isEmptyCell cell then acc
         else (acc.1 ++ [(jsString cell).trim], acc.2 ++ [index]))
        rest

/-- Header extraction over a header row: `(rawHeaders, validColumnIndices)`. -/
def extractHeaders (headerRow : List Value) (mergedColumns : List Nat) :
    List String × List Nat :=
  extractHeadersGo mergedColumns 0 ([], []) headerRow

/-- `Map.set` on the index-to-header map. -/
def mapSetNat : List (Nat × String) → Nat → String → List (Nat × String)
  | [], k, v => [(k, v)]
  | (k1, v1) :: rest, k, v =>
      if k1 = k then (k1, v) :: rest else (k1, v1) :: mapSetNat rest k v

/-- `Map.get` on the index-to-header map. -/
def mapGetNat : List (Nat × String) → Nat → Option String
  | [], _ => none
  | (k1, v1) :: rest, k => if k1 = k then some v1 else mapGetNat rest k

/-- The `headerMap` construction of `parseXLSXSheet`: original column index
to unique header name, skipping falsy names. -/
def buildHeaderMap (validColumnIndices : List Nat) (headers : List String) :
    List (Nat × String) :=
  (validColumnIndices.zip headers).foldl
    (fun headerMap p => if p.2 ≠ "" then mapSetNat headerMap p.1 p.2 else headerMap)
    []

/-- Sign prefix of a JS numeric literal. -/
def parseSign : List Char → Bool × List Char
  | '+' :: rest => (false, rest)
  | '-' :: rest => (true, rest)
  | cs => (false, cs)

/-- Split a leading decimal-digit run. -/
def spanDigits (cs : List Char) : List Char × List Char :=
  (cs.takeWhile Char.isDigit, cs.dropWhile Char.isDigit)

/-- The exponent tail of a JS numeric literal: a signed digit run ending the
string. -/
def parseExpPart (base : ℚ) (cs : List Char) : Option ℚ :=
  let (eneg, cs1) := parseSign cs
  let (ed, rest) := spanDigits cs1
  if ed.isEmpty then none
  else if !rest.isEmpty then none
  else
    let e := natOfDigits ed
    if eneg then some (base / ((10 ^ e : ℕ) : ℚ)) else some (base * ((10 ^ e : ℕ) : ℚ))

/-- `Number(s)` (external builtin, modelled for decimal literals: optional
sign, digits with an optional fraction part, optional exponent; a trimmed
empty string is 0; `none` models NaN.  Hex/Infinity forms are not modelled —
no claim exercises them). -/
def jsNumberOfString (s : String) : Option ℚ :=
  let t := s.trim
  if t = "" then some 0
  else
    let (neg, cs1) := parseSign t.data
    let (ip, rest1) := spanDigits cs1
    let (fp, rest2) :=
      match rest1 with
      | '.' :: r => spanDigits r
      | _ => ([], rest1)
    if ip.isEmpty && fp.isEmpty then none
    else
      let mantissa : ℤ := ((natOfDigits ip * 10 ^ fp.length + natOfDigits fp : ℕ) : ℤ)
      let base : ℚ := Rat.divInt (if neg then -mantissa else mantissa) ((10 ^ fp.length : ℕ) : ℤ)
      match rest2 with
      | [] => some base
      | 'e' :: r => parseExpPart base r
      | 'E' :: r => parseExpPart base r
      | _ => none

/-- The numeric coercion of the row-extraction loop: a string cell whose
`Number()` image is not NaN and whose trim is non-empty becomes a number. -/
def coerceCell (cell : Value) : Value :=
  match cell with
  | Value.str s =>
      match jsNumberOfString s with
      | some q => if s.trim ≠ "" then Value.num q else cell
      | none => cell
  | _ => cell

/-- The `row.forEach((cell, index) => ...)` body of row extraction: cells at
mapped indices are copied (coerced) under their header name. -/
def buildRowDataGo (headerMap : List (Nat × String)) : Nat → Row → List Value → Row
  | _, rowData, [] => rowData
  | index, rowData, cell :: rest =>
      buildRowDataGo headerMap (index + 1)
        (match mapGetNat headerMap index with
         | some headerName => setKey rowData headerName (coerceCell cell)
         | none => rowData)
        rest

/-- One output `Row` from one raw grid row. -/
def buildRowData (headerMap : List (Nat × String)) (row : List Value) : Row :=
  buildRowDataGo headerMap 0 [] row

/-- The result record of `parseXLSXSheet`. -/
structure SheetData where
  headers : List String
  data : List Row
  headerRowIndex : Nat
deriving DecidableEq, Repr

/-- The raw grid of a worksheet. -/
def gridOf (ws : Worksheet) : Grid := sheetToJson ws.cells

/-- The detected header row index of a worksheet. -/
def headerIdxOf (ws : Worksheet) : Nat := detectHeaderRow (gridOf ws)

/-- `rawData[headerRowIndex]`; an out-of-range index behaves like the
`Array.isArray(headerRow)` guard and extracts nothing. -/
def headerRowOf (ws : Worksheet) : List Value := (gridOf ws).getD (headerIdxOf ws) []

/-- The merge-shadowed columns at the detected header row. -/
def mergedColumnsOf (ws : Worksheet) : List Nat :=
  getMergedColumns ws.merges (headerIdxOf ws)

/-- `(rawHeaders, validColumnIndices)` of a worksheet. -/
def rawHeadersOf (ws : Worksheet) : List String × List Nat :=
  extractHeaders (headerRowOf ws) (mergedColumnsOf ws)

/-- The deduplicated schema of a worksheet. -/
def headersOf (ws : Worksheet) : List String :=
  ensureUniqueHeaders (rawHeadersOf ws).1

/-- The missing-data columns of a worksheet at its detected header row. -/
def missingColumnsOf (ws : Worksheet) : List String :=
  findMissingDataColumns ws (headerIdxOf ws)

/-- The index-to-unique-header map of a worksheet. -/
def headerMapOf (ws : Worksheet) : List (Nat × String) :=
  buildHeaderMap (rawHeadersOf ws).2 (headersOf ws)

/-- `missingColumns.join(', ')`. -/
def joinComma : List String → String
  | [] => ""
  | [x] => x
  | x :: rest => x ++ ", " ++ joinComma rest

/-- The error message of the missing-data guard, verbatim from the source. -/
def missingDataMessage (missingColumns : List String) : String :=
  "The following columns have no data: " ++ joinComma missingColumns ++
    ". This usually happens when Excel formulas are not cached. " ++
    "Please open the file in Excel, press Ctrl+S to save (which caches formula results), then re-upload."

/-- The output rows of a worksheet: rows strictly after the header row,
blank rows dropped, remaining cells keyed through the header map. -/
def dataRowsOf (ws : Worksheet) : List Row :=
  ((gridOf ws).drop (headerIdxOf ws + 1)).filterMap
    (fun row =>
      if row.any (fun cell => !(isEmptyCell cell)) then
        some (buildRowData (headerMapOf ws) row)
      else none)

/-- `parseXLSXSheet` (xlsxParser.ts) on a resolved worksheet: the missing-data
guard throws before any table is produced; otherwise the sheet data record. -/
def parseXLSXSheet (ws : Worksheet) : Except String SheetData :=
  if 0 < (missingColumnsOf ws).length then
    Except.error (missingDataMessage (missingColumnsOf ws))
  else
    Except.ok
      { headers := headersOf ws, data := dataRowsOf ws, headerRowIndex := headerIdxOf ws }

/-! ### Claim-side (spec-worded) definitions for the header-row claim -/

/-- Whether one marker occurs as a substring of one (string) cell. -/
def cellMatch (marker : String) (cell : Value) : Bool :=
  match cell with
  | Value.str s => strIncludes s marker
  | _ => false

/-- Modelled from the claim's words: the number of distinct marker substrings
occurring in string cells of the first 6 rows. -/
def specMarkerCount (rows : Grid) : Nat :=
  reportMarkers.countP
    (fun marker => (rows.take 6).any (fun row => row.any (cellMatch marker)))

/-- Modelled from the claim's words: at least 5 non-empty cells of which at
least 60 percent are strings (strings counted among the non-empty cells). -/
def specRowQualifiesClaim (row : List Value) : Bool :=
  let nonEmpty := (row.filter (fun cell => !(isEmptyCell cell))).length
  let nonEmptyStrings :=
    (row.filter (fun cell => isStringCell cell && !(isEmptyCell cell))).length
  decide (5 ≤ nonEmpty) &&
    decide ((3 : ℚ) / 5 ≤ (nonEmptyStrings : ℚ) / (nonEmpty : ℚ))

/-- The claim's search window: row indices 3..14 inclusive. -/
def specWindow : List Nat := List.range' 3 12

/-- The header-row rule exactly as the claim states it, including its
"non-empty cells ... are strings" reading of the 60 percent test: with at
least 2 markers found, the first existing row in the 3..14 window passing
the claim's test, defaulting to 6; otherwise row 0. -/
def specHeaderRowClaim (rows : Grid) : Nat :=
  if 2 ≤ specMarkerCount rows then
    match specWindow.find?
        (fun i => decide (i < rows.length) && specRowQualifiesClaim (rows.getD i [])) with
    | some i => i
    | none => 6
  else 0

/-- The claim's header-row rule with the one correction the code forces: the
60 percent test counts every string-typed cell (empty strings included)
against the count of non-empty cells. -/
def specHeaderRowAmended (rows : Grid) : Nat :=
  if 2 ≤ specMarkerCount rows then
    match specWindow.find?
        (fun i => decide (i < rows.length) && columnHeaderRowQualifies (rows.getD i [])) with
    | some i => i
    | none => 6
  else 0

/-! ### Delimited-text ingestion (csvParser.ts `parseCSVFile`) -/

/-- PapaParse header-mode row construction (external dependency, modelled
from its documented behavior): each cell is assigned under its column's
field name left to right, so duplicate field names overwrite values parsed
under previous same-named columns.  Cells are already `dynamicTyping`-typed. -/
def papaRow (fields : List String) (cells : List Value) : Row :=
  (fields.zip cells).foldl (fun row p => setKey row p.1 p.2) []

/-- The remapping loop of `parseCSVFile`: `newRow[uniqueHeaders[i]] =
row[originalHeaders[i]]`, skipping falsy unique names; a missing source key
copies the JS `undefined`, modelled as null. -/
def remapRow (originalHeaders uniqueHeaders : List String) (row : Row) : Row :=
  (originalHeaders.zip uniqueHeaders).foldl
    (fun newRow p =>
      if p.2 ≠ "" then
        setKey newRow p.2 (match getVal row p.1 with | some v => v | none => Value.null)
      else newRow)
    []

/-- The data path of `parseCSVFile` from the parser results: Papa's
header-keyed rows remapped onto the deduplicated schema. -/
def parseCSVRows (originalHeaders : List String) (rawData : List (List Value)) :
    List Row :=
  (rawData.map (papaRow originalHeaders)).map
    (remapRow originalHeaders (ensureUniqueHeaders originalHeaders))

/-! ### Concrete fixtures used by witnesses and counterexamples -/

/-- A report-preamble grid: markers in rows 0-1, first qualifying row at 6. -/
def exReportGrid : Grid :=
  [[Value.str "Time Period: 2024-01-01 to 2024-01-31"],
   [Value.str "Executed on: 2024-02-01"],
   [],
   [],
   [],
   [],
   [Value.str "Employee", Value.str "Date", Value.str "Hours", Value.str "Task",
    Value.str "Project"],
   [Value.str "John", Value.str "2024-01-15", Value.num 7, Value.str "Dev",
    Value.str "Core"]]

/-- A grid separating the code's 60 percent test from the claim's reading:
row 3 has five non-empty cells of which only two are strings, plus one
empty-string cell that the code also counts as a string. -/
def exMixedGrid : Grid :=
  [[Value.str "Time Period: Jan"],
   [Value.str "Executed on Feb 1"],
   [],
   [Value.num 1, Value.num 2, Value.num 3, Value.str "a", Value.str "b", Value.str ""]]

/-- A worksheet whose column B holds only its header cell while column A has
50 data rows below its header. -/
def exMissingWS : Worksheet :=
  { cells :=
      ("A1", Value.str "Hours") :: ("B1", Value.str "Empty Col") ::
        (List.range 50).map (fun i => ("A" ++ Nat.repr (i + 2), Value.num 8)),
    merges := [] }

/-- A worksheet with a merge spanning columns 2-4 on the header row. -/
def exMergeWS : Worksheet :=
  { cells :=
      [("A1", Value.str "Name"), ("B1", Value.str "Date"), ("C1", Value.str "Span"),
       ("F1", Value.str "Hours"),
       ("A2", Value.str "x"), ("B2", Value.str "d1"), ("C2", Value.num 1),
       ("D2", Value.num 2), ("E2", Value.num 3), ("F2", Value.num 7),
       ("A3", Value.str "y"), ("B3", Value.str "d2"), ("C3", Value.num 4),
       ("D3", Value.num 5), ("E3", Value.num 6), ("F3", Value.num 2)],
    merges := [⟨0, 2, 0, 4⟩] }

end BirtConvert

namespace BirtConvert

/-! ### Association-list and header lemmas -/

lemma getVal_setKey_self (r : Row) (k : String) (v : Value) :
    getVal (setKey r k v) k = some v := by
  induction r with
  | nil => simp [setKey, getVal]
  | cons p rest ih =>
      obtain ⟨k1, v1⟩ := p
      by_cases hk : k1 = k <;> simp [setKey, getVal, hk, ih]

lemma getVal_setKey_ne (r : Row) (k c : String) (v : Value) (h : c ≠ k) :
    getVal (setKey r k v) c = getVal r c := by
  induction r with
  | nil => simp [setKey, getVal, Ne.symm h]
  | cons p rest ih =>
      obtain ⟨k1, v1⟩ := p
      by_cases hk : k1 = k
      · subst hk
        simp [setKey, getVal, Ne.symm h]
      · by_cases hc : k1 = c
        · simp [setKey, getVal, hk, hc, h]
        · simp [setKey, getVal, hk, hc, ih]

lemma append_ne_empty_left {s t : String} (h : s ≠ "") : s ++ t ≠ "" := by
  intro he
  apply h
  rw [String.ext_iff] at he ⊢
  rw [String.data_append] at he
  rcases List.append_eq_nil.mp he with ⟨h1, _⟩
  simpa using h1

lemma ensureUniqueHeadersGo_length (counts : List (String × Nat)) (l : List String) :
    (ensureUniqueHeadersGo counts l).length = l.length := by
  induction l generalizing counts with
  | nil => rfl
  | cons hd t ih =>
      rw [ensureUniqueHeadersGo]
      cases lookupCount counts hd <;> simp [ih]

lemma ensureUniqueHeadersGo_ne_empty (counts : List (String × Nat)) (l : List String)
    (hl : ∀ s ∈ l, s ≠ "") : ∀ s ∈ ensureUniqueHeadersGo counts l, s ≠ "" := by
  induction l generalizing counts with
  | nil => simp [ensureUniqueHeadersGo]
  | cons hd t ih =>
      intro s hs
      rw [ensureUniqueHeadersGo] at hs
      cases hc : lookupCount counts hd with
      | none =>
          rw [hc] at hs
          rcases List.mem_cons.mp hs with h | h
          · exact h ▸ hl hd (by simp)
          · exact ih _ (fun x hx => hl x (by simp [hx])) s h
      | some n =>
          rw [hc] at hs
          rcases List.mem_cons.mp hs with h | h
          · exact h ▸ append_ne_empty_left
              (append_ne_empty_left (append_ne_empty_left (hl hd (by simp))))
          · exact ih _ (fun x hx => hl x (by simp [hx])) s h

/-! ### Converter lemmas (`convertCSVColumns`, `keepOriginal = false`) -/

lemma replaceStep_of_notNum {r : Row} {c : String} (h : NotNumAt r c) :
    replaceStep r c = r := by
  unfold replaceStep
  cases hv : getVal r c with
  | none => rfl
  | some v =>
      cases v with
      | num q => exact absurd hv (h q)
      | str s => rfl
      | null => rfl

lemma notNumAt_replaceStep_self (r : Row) (c : String) :
    NotNumAt (replaceStep r c) c := by
  intro q
  unfold replaceStep
  cases hv : getVal r c with
  | none => simp [hv]
  | some v =>
      cases v with
      | num q2 => simp [getVal_setKey_self]
      | str s => simp [hv]
      | null => simp [hv]

lemma notNumAt_replaceStep {r : Row} {c : String} (c2 : String) (h : NotNumAt r c) :
    NotNumAt (replaceStep r c2) c := by
  by_cases hc : c = c2
  · subst hc
    exact notNumAt_replaceStep_self r c
  · intro q
    unfold replaceStep
    cases hv : getVal r c2 with
    | none => exact h q
    | some v =>
        cases v with
        | num q2 => rw [getVal_setKey_ne _ _ _ _ hc]; exact h q
        | str s => exact h q
        | null => exact h q

lemma foldl_replaceStep_notNum_of (cols : List String) (r : Row) (c : String)
    (h : NotNumAt r c) : NotNumAt (cols.foldl replaceStep r) c := by
  induction cols generalizing r with
  | nil => exact h
  | cons hd t ih => exact ih _ (notNumAt_replaceStep hd h)

lemma foldl_replaceStep_notNum (cols : List String) (r : Row) (c : String)
    (hmem : c ∈ cols) : NotNumAt (cols.foldl replaceStep r) c := by
  induction cols generalizing r with
  | nil => cases hmem
  | cons hd t ih =>
      rw [List.foldl_cons]
      by_cases hc : c ∈ t
      · exact ih _ hc
      · have hceq : c = hd := by
          rcases List.mem_cons.mp hmem with h | h
          · exact h
          · exact absurd h hc
        subst hceq
        exact foldl_replaceStep_notNum_of _ _ _ (notNumAt_replaceStep_self _ _)

lemma foldl_replaceStep_id (cols : List String) (r : Row)
    (h : ∀ c ∈ cols, NotNumAt r c) : cols.foldl replaceStep r = r := by
  induction cols with
  | nil => rfl
  | cons hd t ih =>
      rw [List.foldl_cons, replaceStep_of_notNum (h hd (by simp))]
      exact ih (fun c hc => h c (by simp [hc]))

lemma convertRowStep_false (r : Row) (h : List String) (c : String) :
    convertRowStep false (r, h) c = (replaceStep r c, h) := by
  unfold convertRowStep replaceStep
  cases hv : getVal r c with
  | none => rfl
  | some v => cases v <;> simp [hv]

lemma foldl_convertRowStep_false (cols : List String) (r : Row) (h : List String) :
    cols.foldl (convertRowStep false) (r, h) = (cols.foldl replaceStep r, h) := by
  induction cols generalizing r with
  | nil => rfl
  | cons hd t ih => rw [List.foldl_cons, convertRowStep_false, List.foldl_cons]; exact ih _

lemma convertCSVColumns_false (data : List Row) (cols : List String) :
    convertCSVColumns data cols false =
      (data.map (fun r => cols.foldl replaceStep r), []) := by
  have haux : ∀ (l : List Row) (a : List Row) (h : List String),
      l.foldl (fun acc row =>
        let out := cols.foldl (convertRowStep false) (row, acc.2)
        (acc.1 ++ [out.1], out.2)) (a, h) =
      (a ++ l.map (fun r => cols.foldl replaceStep r), h) := by
    intro l
    induction l with
    | nil => intro a h; simp
    | cons row t ih =>
        intro a h
        rw [List.foldl_cons]
        have hstep : (let out := cols.foldl (convertRowStep false) (row, (a, h).2)
            ((a, h).1 ++ [out.1], out.2)) = (a ++ [cols.foldl replaceStep row], h) := by
          simp only [foldl_convertRowStep_false]
        rw [hstep, ih]
        simp
  simpa [convertCSVColumns] using haux data [] []

/-! ### Claim theorems (first group) -/

/-- C1: the spec requires the minutes field of `decimalToTime` to stay in
0..59, carrying a rounded value of 60 into the hour.  The code performs no
such carry: at decimal input 0.9999 the rounded minutes value is 60 and the
emitted string is "00:60", not the carried "01:00".  (code_bug evidence.) -/
theorem C1_no_minutes_carry : decimalToTime (9999 / 10000) = "00:60" := by
  with_unfolding_all decide

/-- C2: converting with `keepOriginal = false` twice with the same column
selection is idempotent: the second pass maps every row through conversions
that no longer fire, because the first pass left no numeric value at any
selected column. -/
theorem C2_convert_keepfalse_idempotent (data : List Row) (cols : List String) :
    (convertCSVColumns (convertCSVColumns data cols false).1 cols false).1 =
      (convertCSVColumns data cols false).1 := by
  rw [convertCSVColumns_false, convertCSVColumns_false]
  simp only [List.map_map]
  apply List.map_congr_left
  intro r _
  exact foldl_replaceStep_id _ _ (fun c hc => foldl_replaceStep_notNum cols r c hc)

/-- C4 counterexample: a column named "EmployeeID" whose values are exactly
1001, 1002, 1003 is NOT suggested by `detectDecimalHourColumns` — the range
guard requires the maximum to be at most 1000 — refuting the claim that it
is included. -/
theorem C4_employeeid_counterexample :
    detectDecimalHourColumns ["EmployeeID"]
        [[("EmployeeID", Value.num 1001)], [("EmployeeID", Value.num 1002)],
         [("EmployeeID", Value.num 1003)]] = [] ∧
    "EmployeeID" ∉ detectDecimalHourColumns ["EmployeeID"]
        [[("EmployeeID", Value.num 1001)], [("EmployeeID", Value.num 1002)],
         [("EmployeeID", Value.num 1003)]] := by
  with_unfolding_all decide

/-- C4 amended: a keyword-less, fully numeric column is suggested when its
values lie inside the [-1000, 1000] range guard: "EmployeeID" with values
101, 102, 103 is included in the suggestions. -/
theorem C4_employeeid_amended :
    detectDecimalHourColumns ["EmployeeID"]
        [[("EmployeeID", Value.num 101)], [("EmployeeID", Value.num 102)],
         [("EmployeeID", Value.num 103)]] = ["EmployeeID"] := by
  with_unfolding_all decide

/-- C9 counterexample: on input `[""]` the normalizer emits `[""]`, whose
single entry is the empty string, refuting the claim that every output entry
is non-empty for every input. -/
theorem C9_empty_header_counterexample :
    ensureUniqueHeaders [""] = [""] ∧
    ¬ (∀ s ∈ ensureUniqueHeaders [""], s ≠ "") := by
  constructor
  · rfl
  · intro h
    exact h "" (by simp [ensureUniqueHeaders, ensureUniqueHeadersGo, lookupCount]) rfl

/-- C9 amended: `ensureUniqueHeaders` maps ["Hours","Hours","Name"] to
["Hours","Hours (2)","Name"] and [] to []; output length always equals input
length; and every output entry is non-empty whenever every input entry is. -/
theorem C9_normalize_amended (headers : List String) (hne : ∀ s ∈ headers, s ≠ "") :
    ensureUniqueHeaders ["Hours", "Hours", "Name"] = ["Hours", "Hours (2)", "Name"] ∧
    ensureUniqueHeaders ([] : List String) = [] ∧
    (∀ l : List String, (ensureUniqueHeaders l).length = l.length) ∧
    (∀ s ∈ ensureUniqueHeaders headers, s ≠ "") := by
  refine ⟨by with_unfolding_all decide, rfl, ?_, ?_⟩
  · intro l
    exact ensureUniqueHeadersGo_length [] l
  · exact ensureUniqueHeadersGo_ne_empty [] headers hne

/-- C9 witness: the amended theorem applied at the concrete input
["Hours","Hours","Name"], whose entries are all non-empty. -/
theorem C9_normalize_witness :
    (∀ s ∈ (["Hours", "Hours", "Name"] : List String), s ≠ "") ∧
    (∀ s ∈ ensureUniqueHeaders ["Hours", "Hours", "Name"], s ≠ "") :=
  ⟨by decide, (C9_normalize_amended ["Hours", "Hours", "Name"] (by decide)).2.2.2⟩

/-- C10: `decimalToTime` sends 7.5 to "07:30", 3.25 to "03:15", -7.5 to
"-07:30" and 0 to "00:00"; and for every positive d the value at -d is
exactly "-" prepended to the value at d (the two outputs differ only by the
leading sign). -/
theorem C10_toClock_examples_and_sign (d : ℚ) (hd : 0 < d) :
    decimalToTime (15 / 2) = "07:30" ∧ decimalToTime (13 / 4) = "03:15" ∧
    decimalToTime (-(15 / 2)) = "-07:30" ∧ decimalToTime 0 = "00:00" ∧
    decimalToTime (-d) = "-" ++ decimalToTime d := by
  refine ⟨by with_unfolding_all decide, by with_unfolding_all decide,
    by with_unfolding_all decide, by with_unfolding_all decide, ?_⟩
  have h1 : -d < 0 := by linarith
  have h2 : ¬ d < 0 := by linarith
  simp only [decimalToTime, abs_neg, if_pos h1, if_neg h2, String.empty_append,
    String.append_assoc]

/-- C10 witness: the sign symmetry applied at the concrete positive input 7.5. -/
theorem C10_toClock_witness :
    (0 : ℚ) < 15 / 2 ∧ decimalToTime (-(15 / 2)) = "-" ++ decimalToTime (15 / 2) :=
  ⟨by norm_num, (C10_toClock_examples_and_sign (15 / 2) (by norm_num)).2.2.2.2⟩

end BirtConvert

namespace BirtConvert

/-! ### Header-row discovery: the code against the claim's wording -/

lemma mem_markerFold (s : String) (ms : List String) (acc : List String) (m : String) :
    (m ∈ ms.foldl
        (fun fnd marker =>
          if strIncludes s marker && !(fnd.contains marker) then fnd ++ [marker] else fnd)
        acc) ↔
      m ∈ acc ∨ (m ∈ ms ∧ strIncludes s m = true) := by
  induction ms generalizing acc with
  | nil => simp
  | cons mk ms ih =>
      rw [List.foldl_cons, ih]
      by_cases h1 : strIncludes s mk = true
      · by_cases h2 : mk ∈ acc
        · rw [if_neg (by simp [h1, h2])]
          simp only [List.mem_cons]
          constructor
          · rintro (h | ⟨hm, hi⟩)
            · exact Or.inl h
            · exact Or.inr ⟨Or.inr hm, hi⟩
          · rintro (h | ⟨hm | hm, hi⟩)
            · exact Or.inl h
            · exact Or.inl (hm ▸ h2)
            · exact Or.inr ⟨hm, hi⟩
        · rw [if_pos (by simp [h1, h2])]
          simp only [List.mem_cons, List.mem_append, List.mem_singleton,
            List.not_mem_nil, or_false]
          constructor
          · rintro ((h | h) | ⟨hm, hi⟩)
            · exact Or.inl h
            · exact Or.inr ⟨Or.inl h, h ▸ h1⟩
            · exact Or.inr ⟨Or.inr hm, hi⟩
          · rintro (h | ⟨hm | hm, hi⟩)
            · exact Or.inl (Or.inl h)
            · exact Or.inl (Or.inr hm)
            · exact Or.inr ⟨hm, hi⟩
      · rw [if_neg (by simp [h1])]
        simp only [List.mem_cons]
        constructor
        · rintro (h | ⟨hm, hi⟩)
          · exact Or.inl h
          · exact Or.inr ⟨Or.inr hm, hi⟩
        · rintro (h | ⟨hm | hm, hi⟩)
          · exact Or.inl h
          · exact absurd (hm ▸ hi) h1
          · exact Or.inr ⟨hm, hi⟩

lemma nodup_markerFold (s : String) (ms : List String) (acc : List String)
    (h : acc.Nodup) :
    (ms.foldl
        (fun fnd marker =>
          if strIncludes s marker && !(fnd.contains marker) then fnd ++ [marker] else fnd)
        acc).Nodup := by
  induction ms generalizing acc with
  | nil => exact h
  | cons mk ms ih =>
      rw [List.foldl_cons]
      apply ih
      by_cases hc : mk ∈ acc
      · rw [if_neg (by simp [hc])]
        exact h
      · by_cases h1 : strIncludes s mk = true
        · rw [if_pos (by simp [h1, hc])]
          simp [List.nodup_append, h, hc]
        · rw [if_neg (by simp [h1])]
          exact h

lemma mem_addMarkersOfCell (found : List String) (cell : Value) (m : String) :
    m ∈ addMarkersOfCell found cell ↔
      m ∈ found ∨ (m ∈ reportMarkers ∧ cellMatch m cell = true) := by
  cases cell with
  | str s => simpa [addMarkersOfCell, cellMatch] using mem_markerFold s reportMarkers found m
  | num q => simp [addMarkersOfCell, cellMatch]
  | null => simp [addMarkersOfCell, cellMatch]

lemma nodup_addMarkersOfCell (found : List String) (cell : Value) (h : found.Nodup) :
    (addMarkersOfCell found cell).Nodup := by
  cases cell with
  | str s => exact nodup_markerFold s reportMarkers found h
  | num q => exact h
  | null => exact h

lemma mem_rowFold (row : List Value) (found : List String) (m : String) :
    m ∈ row.foldl addMarkersOfCell found ↔
      m ∈ found ∨ (m ∈ reportMarkers ∧ row.any (cellMatch m) = true) := by
  induction row generalizing found with
  | nil => simp
  | cons cell row ih =>
      rw [List.foldl_cons, ih, mem_addMarkersOfCell]
      simp only [List.any_cons, Bool.or_eq_true]
      tauto

lemma nodup_rowFold (row : List Value) (found : List String) (h : found.Nodup) :
    (row.foldl addMarkersOfCell found).Nodup := by
  induction row generalizing found with
  | nil => exact h
  | cons cell row ih => exact ih _ (nodup_addMarkersOfCell _ _ h)

lemma mem_rowsFold (rl : Grid) (found : List String) (m : String) :
    m ∈ rl.foldl (fun found row => row.foldl addMarkersOfCell found) found ↔
      m ∈ found ∨ (m ∈ reportMarkers ∧ rl.any (fun row => row.any (cellMatch m)) = true) := by
  induction rl generalizing found with
  | nil => simp
  | cons row rl ih =>
      rw [List.foldl_cons, ih, mem_rowFold]
      simp only [List.any_cons, Bool.or_eq_true]
      tauto

lemma nodup_rowsFold (rl : Grid) (found : List String) (h : found.Nodup) :
    (rl.foldl (fun found row => row.foldl addMarkersOfCell found) found).Nodup := by
  induction rl generalizing found with
  | nil => exact h
  | cons row rl ih => exact ih _ (nodup_rowFold _ _ h)

lemma mem_foundMarkersIn (rows : Grid) (m : String) :
    m ∈ foundMarkersIn rows ↔
      m ∈ reportMarkers ∧ (rows.take 6).any (fun row => row.any (cellMatch m)) = true := by
  rw [foundMarkersIn, mem_rowsFold]
  simp

lemma nodup_foundMarkersIn (rows : Grid) : (foundMarkersIn rows).Nodup :=
  nodup_rowsFold _ _ List.nodup_nil

lemma foundMarkersIn_length (rows : Grid) :
    (foundMarkersIn rows).length = specMarkerCount rows := by
  have hperm : (foundMarkersIn rows).Perm
      (reportMarkers.filter
        (fun marker => (rows.take 6).any (fun row => row.any (cellMatch marker)))) := by
    apply List.perm_of_nodup_nodup_toFinset_eq (nodup_foundMarkersIn rows)
      (List.Nodup.filter _ (by decide))
    ext a
    simp [mem_foundMarkersIn, List.mem_filter]
  rw [hperm.length_eq, specMarkerCount, List.countP_eq_length_filter]

lemma hasReportHeader_iff (rows : Grid) :
    hasReportHeader rows = true ↔ 2 ≤ specMarkerCount rows := by
  simp [hasReportHeader, foundMarkersIn_length]

lemma find?_congr_on {α : Type} (l : List α) (p q : α → Bool)
    (h : ∀ x ∈ l, p x = q x) : l.find? p = l.find? q := by
  induction l with
  | nil => rfl
  | cons a l ih =>
      rw [List.find?_cons, List.find?_cons, h a (by simp)]
      cases hq : q a
      · exact ih (fun x hx => h x (by simp [hx]))
      · rfl

lemma findColumnHeaderRow_eq_spec (rows : Grid) :
    findColumnHeaderRow rows =
      (match specWindow.find?
          (fun i => decide (i < rows.length) && columnHeaderRowQualifies (rows.getD i [])) with
       | some i => i
       | none => 6) := by
  have hm15 : min rows.length 15 ≤ 15 := min_le_right _ _
  have hsplit : List.range' 3 (min rows.length 15 - 3) ++
      List.range' (3 + (min rows.length 15 - 3)) (12 - (min rows.length 15 - 3)) =
        specWindow := by
    have h := List.range'_append 3 (min rows.length 15 - 3) (12 - (min rows.length 15 - 3)) 1
    simp only [one_mul] at h
    rw [h, specWindow]
    congr 1
    omega
  rw [← hsplit, List.find?_append]
  have h2none : (List.range' (3 + (min rows.length 15 - 3)) (12 - (min rows.length 15 - 3))).find?
      (fun i => decide (i < rows.length) && columnHeaderRowQualifies (rows.getD i [])) = none := by
    rw [List.find?_eq_none]
    intro i hi
    rw [List.mem_range'_1] at hi
    intro hcontra
    rw [Bool.and_eq_true, decide_eq_true_eq] at hcontra
    omega
  have hcongr : (List.range' 3 (min rows.length 15 - 3)).find?
      (fun i => decide (i < rows.length) && columnHeaderRowQualifies (rows.getD i [])) =
      (List.range' 3 (min rows.length 15 - 3)).find?
        (fun i => columnHeaderRowQualifies (rows.getD i [])) := by
    apply find?_congr_on
    intro i hi
    rw [List.mem_range'_1] at hi
    have : i < rows.length := by omega
    simp [this]
  rw [h2none, hcongr, findColumnHeaderRow]
  cases (List.range' 3 (min rows.length 15 - 3)).find?
      (fun i => columnHeaderRowQualifies (rows.getD i [])) <;> rfl

/-- C3 counterexample: on a grid with two markers in rows 0-1 whose row 3
holds five non-empty cells (three numbers, two non-empty strings) plus one
empty-string cell, the code counts the empty string as a string cell and
picks row 3, while the claim's rule (60 percent of the NON-EMPTY cells must
be strings) rejects every window row and defaults to 6. -/
theorem C3_header_row_counterexample :
    detectHeaderRow exMixedGrid = 3 ∧ specHeaderRowClaim exMixedGrid = 6 := by
  with_unfolding_all decide

/-- C3 amended: header-row discovery behaves exactly as the claim states it —
markers, the 3..14 window capped at the grid length, the default of 6 and
the no-marker fallback to 0 — once the 60 percent test is read as the code
computes it: string-typed cells (empty strings included) against the
non-empty cell count.  The claim's concrete scenario stands: a grid with
markers in rows 0-2 whose first qualifying row is 6 is ingested with header
row 6, not 0. -/
theorem C3_header_row_amended (rows : Grid) :
    detectHeaderRow rows = specHeaderRowAmended rows ∧ detectHeaderRow exReportGrid = 6 := by
  refine ⟨?_, by with_unfolding_all decide⟩
  by_cases hlen : rows.length = 0
  · have hnil : rows = [] := List.length_eq_zero.mp hlen
    subst hnil
    with_unfolding_all decide
  · rw [detectHeaderRow, if_neg hlen, specHeaderRowAmended]
    by_cases hrep : hasReportHeader rows = true
    · rw [if_pos hrep, if_pos ((hasReportHeader_iff rows).mp hrep)]
      exact findColumnHeaderRow_eq_spec rows
    · rw [if_neg hrep, if_neg (fun hc => hrep ((hasReportHeader_iff rows).mpr hc))]

end BirtConvert

namespace BirtConvert

/-! ### The missing-data guard -/

lemma joinComma_mem_decomp {name : String} {l : List String} (h : name ∈ l) :
    ∃ a b : String, joinComma l = a ++ (name ++ b) := by
  induction l with
  | nil => cases h
  | cons x rest ih =>
      cases rest with
      | nil =>
          rcases List.mem_cons.mp h with rfl | h2
          · exact ⟨"", "", by simp [joinComma, String.empty_append, String.append_empty]⟩
          · cases h2
      | cons y t =>
          rcases List.mem_cons.mp h with rfl | h2
          · refine ⟨"", ", " ++ joinComma (y :: t), ?_⟩
            show name ++ ", " ++ joinComma (y :: t) = "" ++ (name ++ (", " ++ joinComma (y :: t)))
            simp [String.empty_append, String.append_assoc]
          · obtain ⟨a, b, hab⟩ := ih h2
            refine ⟨x ++ ", " ++ a, b, ?_⟩
            show x ++ ", " ++ joinComma (y :: t) = x ++ ", " ++ a ++ (name ++ b)
            rw [hab]
            simp [String.append_assoc]

/-- C5: whenever the missing-data check finds columns with exactly one
populated cell while some column has more, `parseXLSXSheet` fails with the
guard's error message — no table, not even a partial one, is produced — and
that message contains every offending column's header name verbatim. -/
theorem C5_missing_data_guard (ws : Worksheet) (hmiss : missingColumnsOf ws ≠ []) :
    parseXLSXSheet ws = Except.error (missingDataMessage (missingColumnsOf ws)) ∧
    ∀ name ∈ missingColumnsOf ws, ∃ a b : String,
      missingDataMessage (missingColumnsOf ws) = a ++ (name ++ b) := by
  constructor
  · rw [parseXLSXSheet, if_pos (List.length_pos.mpr hmiss)]
  · intro name hname
    obtain ⟨a, b, hab⟩ := joinComma_mem_decomp hname
    refine ⟨"The following columns have no data: " ++ a,
      b ++ (". This usually happens when Excel formulas are not cached. " ++
        "Please open the file in Excel, press Ctrl+S to save (which caches formula results), then re-upload."), ?_⟩
    rw [missingDataMessage, hab]
    simp [String.append_assoc]

set_option maxRecDepth 40000 in
/-- C5 witness: the guard applied to a worksheet whose column B holds only
its header cell "Empty Col" while column A has 50 data rows: ingestion fails
with the message naming that column. -/
theorem C5_missing_data_witness :
    missingColumnsOf exMissingWS ≠ [] ∧
    parseXLSXSheet exMissingWS =
      Except.error (missingDataMessage (missingColumnsOf exMissingWS)) :=
  ⟨by with_unfolding_all decide,
   (C5_missing_data_guard exMissingWS (by with_unfolding_all decide)).1⟩

end BirtConvert

namespace BirtConvert

/-! ### Merged-cell reconciliation -/

lemma mem_setAddAll_left (s cols : List Nat) (x : Nat) (hx : x ∈ s) :
    x ∈ setAddAll s cols := by
  induction cols generalizing s with
  | nil => simpa [setAddAll] using hx
  | cons c rest ih =>
      rw [setAddAll, List.foldl_cons, ← setAddAll]
      apply ih
      by_cases hc : c ∈ s
      · simpa [hc] using hx
      · simp [hc, hx]

lemma mem_setAddAll_right (s cols : List Nat) (x : Nat) (hx : x ∈ cols) :
    x ∈ setAddAll s cols := by
  induction cols generalizing s with
  | nil => cases hx
  | cons c rest ih =>
      rw [setAddAll, List.foldl_cons, ← setAddAll]
      rcases List.mem_cons.mp hx with rfl | hx2
      · apply mem_setAddAll_left
        by_cases hc : x ∈ s <;> simp [hc]
      · exact ih _ hx2

lemma mem_mergeFold_mono (merges : List MergeRange) (h : Nat) (acc : List Nat)
    (x : Nat) (hx : x ∈ acc) :
    x ∈ merges.foldl
        (fun mergedCols merge =>
          if merge.sr ≤ h ∧ h ≤ merge.er then
            setAddAll mergedCols (List.range' (merge.sc + 1) (merge.ec - merge.sc))
          else mergedCols)
        acc := by
  induction merges generalizing acc with
  | nil => exact hx
  | cons mg rest ih =>
      rw [List.foldl_cons]
      apply ih
      by_cases hc : mg.sr ≤ h ∧ h ≤ mg.er
      · rw [if_pos hc]
        exact mem_setAddAll_left _ _ _ hx
      · rw [if_neg hc]
        exact hx

lemma mem_getMergedColumns (merges : List MergeRange) (h : Nat) (m : MergeRange)
    (c : Nat) (hm : m ∈ merges) (h1 : m.sr ≤ h) (h2 : h ≤ m.er)
    (hc1 : m.sc < c) (hc2 : c ≤ m.ec) :
    c ∈ getMergedColumns merges h := by
  rw [getMergedColumns]
  have haux : ∀ (ml : List MergeRange) (acc : List Nat), m ∈ ml →
      c ∈ ml.foldl
          (fun mergedCols merge =>
            if merge.sr ≤ h ∧ h ≤ merge.er then
              setAddAll mergedCols (List.range' (merge.sc + 1) (merge.ec - merge.sc))
            else mergedCols)
          acc := by
    intro ml
    induction ml with
    | nil => intro acc hmem; cases hmem
    | cons mg rest ih =>
        intro acc hmem
        rw [List.foldl_cons]
        rcases List.mem_cons.mp hmem with rfl | hmem2
        · apply mem_mergeFold_mono
          rw [if_pos ⟨h1, h2⟩]
          apply mem_setAddAll_right
          rw [List.mem_range'_1]
          omega
        · exact ih _ hmem2
  exact haux merges [] hm

lemma extractHeadersGo_not_merged (mergedColumns : List Nat) (cells : List Value)
    (c : Nat) (hc : c ∈ mergedColumns) :
    ∀ (i : Nat) (acc : List String × List Nat), c ∉ acc.2 →
      c ∉ (extractHeadersGo mergedColumns i acc cells).2 := by
  induction cells with
  | nil => intro i acc hacc; simpa [extractHeadersGo] using hacc
  | cons cell rest ih =>
      intro i acc hacc
      rw [extractHeadersGo]
      apply ih
      by_cases hmi : i ∈ mergedColumns
      · simpa [hmi] using hacc
      · have hne : c ≠ i := by
          intro heq
          subst heq
          exact hmi hc
        by_cases hemp : isEmptyCell cell = true
        · simpa [hmi, hemp] using hacc
        · simp [hmi, hemp, not_or]
          exact ⟨hacc, hne⟩

lemma mapGetNat_mapSetNat_ne (m : List (Nat × String)) (k c : Nat) (v : String)
    (h : c ≠ k) : mapGetNat (mapSetNat m k v) c = mapGetNat m c := by
  induction m with
  | nil => simp [mapSetNat, mapGetNat, Ne.symm h]
  | cons p rest ih =>
      obtain ⟨k1, v1⟩ := p
      by_cases hk : k1 = k
      · subst hk
        simp [mapSetNat, mapGetNat, Ne.symm h]
      · by_cases hc : k1 = c
        · simp [mapSetNat, mapGetNat, hk, hc, h]
        · simp [mapSetNat, mapGetNat, hk, hc, ih]

lemma mapGetNat_buildHeaderMap_of_not_mem (valid : List Nat) (headers : List String)
    (c : Nat) (hc : c ∉ valid) : mapGetNat (buildHeaderMap valid headers) c = none := by
  rw [buildHeaderMap]
  have haux : ∀ (l : List (Nat × String)) (acc : List (Nat × String)),
      (∀ p ∈ l, p.1 ≠ c) → mapGetNat acc c = none →
      mapGetNat
        (l.foldl
          (fun headerMap p => if p.2 ≠ "" then mapSetNat headerMap p.1 p.2 else headerMap)
          acc) c = none := by
    intro l
    induction l with
    | nil => intro acc _ hacc; exact hacc
    | cons p rest ih =>
        intro acc hl hacc
        rw [List.foldl_cons]
        apply ih _ (fun q hq => hl q (by simp [hq]))
        by_cases hp : p.2 ≠ ""
        · rw [if_pos hp, mapGetNat_mapSetNat_ne _ _ _ _ (fun heq => hl p (by simp) heq.symm)]
          exact hacc
        · rw [if_neg hp]
          exact hacc
  apply haux
  · intro p hp heq
    exact hc (heq ▸ (List.of_mem_zip hp).1)
  · rfl

lemma buildRowDataGo_set (hm : List (Nat × String)) (cells : List Value) :
    ∀ (i k : Nat) (rd : Row) (v : Value), mapGetNat hm (i + k) = none →
      buildRowDataGo hm i rd (cells.set k v) = buildRowDataGo hm i rd cells := by
  induction cells with
  | nil => intro i k rd v _; rfl
  | cons cell rest ih =>
      intro i k rd v hnone
      cases k with
      | zero =>
          rw [Nat.add_zero] at hnone
          simp only [List.set]
          rw [buildRowDataGo, buildRowDataGo, hnone]
      | succ k2 =>
          simp only [List.set]
          rw [buildRowDataGo, buildRowDataGo]
          apply ih
          have harith : i + 1 + k2 = i + (k2 + 1) := by omega
          rw [harith]
          exact hnone

/-- C6: for every declared merge region intersecting the detected header row,
every column of the region except the leftmost is excluded from header
extraction (it is not a retained column index), gets no entry in the
index-to-header map, and its cells never influence any output row. -/
theorem C6_merged_columns_excluded (ws : Worksheet) (m : MergeRange) (c : Nat)
    (hm : m ∈ ws.merges) (h1 : m.sr ≤ headerIdxOf ws) (h2 : headerIdxOf ws ≤ m.er)
    (hc1 : m.sc < c) (hc2 : c ≤ m.ec) :
    c ∉ (rawHeadersOf ws).2 ∧
    mapGetNat (headerMapOf ws) c = none ∧
    ∀ (row : List Value) (v : Value),
      buildRowData (headerMapOf ws) (row.set c v) = buildRowData (headerMapOf ws) row := by
  have hmc : c ∈ mergedColumnsOf ws :=
    mem_getMergedColumns _ _ m c hm h1 h2 hc1 hc2
  have hnv : c ∉ (rawHeadersOf ws).2 := by
    rw [rawHeadersOf, extractHeaders]
    exact extractHeadersGo_not_merged _ _ _ hmc 0 ([], []) (by simp)
  have hmap : mapGetNat (headerMapOf ws) c = none :=
    mapGetNat_buildHeaderMap_of_not_mem _ _ _ hnv
  refine ⟨hnv, hmap, ?_⟩
  intro row v
  by_cases hlen : c < row.length
  · rw [buildRowData, buildRowData]
    apply buildRowDataGo_set
    simpa using hmap
  · rw [List.set_eq_of_length_le (le_of_not_lt hlen)]

set_option maxRecDepth 40000 in
/-- C6 witness: the worksheet with a merge spanning columns 2-4 on header
row 0: column 3 is excluded, and the resulting schema keeps only column 2's
label "Span" for the merged span, with the full parse shown. -/
theorem C6_merged_columns_witness :
    ((⟨0, 2, 0, 4⟩ : MergeRange) ∈ exMergeWS.merges ∧ (2 : Nat) < 3 ∧ (3 : Nat) ≤ 4) ∧
    3 ∉ (rawHeadersOf exMergeWS).2 ∧
    headersOf exMergeWS = ["Name", "Date", "Span", "Hours"] ∧
    parseXLSXSheet exMergeWS = Except.ok
      { headers := ["Name", "Date", "Span", "Hours"],
        data := [[("Name", Value.str "x"), ("Date", Value.str "d1"),
                  ("Span", Value.num 1), ("Hours", Value.num 7)],
                 [("Name", Value.str "y"), ("Date", Value.str "d2"),
                  ("Span", Value.num 4), ("Hours", Value.num 2)]],
        headerRowIndex := 0 } :=
  ⟨⟨by with_unfolding_all decide, by decide, by decide⟩,
   (C6_merged_columns_excluded exMergeWS ⟨0, 2, 0, 4⟩ 3 (by with_unfolding_all decide)
     (by with_unfolding_all decide) (by with_unfolding_all decide)
     (by decide) (by decide)).1,
   by with_unfolding_all decide,
   by with_unfolding_all rfl⟩

end BirtConvert

namespace BirtConvert

/-! ### Additive conversion (`convertCSVColumns`, `keepOriginal = true`) -/

lemma append_hhmm_inj {c1 c2 : String} (h : c1 ++ "_hhmm" = c2 ++ "_hhmm") : c1 = c2 := by
  rw [String.ext_iff] at h ⊢
  rw [String.data_append, String.data_append] at h
  exact List.append_cancel_right h

lemma getVal_keepStep_ne (r : Row) (x k : String) (h : x ++ "_hhmm" ≠ k) :
    getVal (keepStep r x) k = getVal r k := by
  rw [keepStep]
  cases hv : getVal r x with
  | none => rfl
  | some v =>
      cases v with
      | num q => exact getVal_setKey_ne _ _ _ _ (Ne.symm h)
      | str s => rfl
      | null => rfl

lemma getVal_foldl_keepStep_of_ne (l : List String) (r : Row) (k : String)
    (h : ∀ x ∈ l, x ++ "_hhmm" ≠ k) : getVal (l.foldl keepStep r) k = getVal r k := by
  induction l generalizing r with
  | nil => rfl
  | cons x rest ih =>
      rw [List.foldl_cons, ih _ (fun y hy => h y (by simp [hy])),
        getVal_keepStep_ne _ _ _ (h x (by simp))]

lemma dedupAppend_cons (h : List String) (a : String) (l : List String) :
    dedupAppend h (a :: l) = dedupAppend (if a ∈ h then h else h ++ [a]) l := rfl

lemma getVal_foldl_keepStep_derived (l : List String) (r : Row) (c : String) (q : ℚ)
    (hmem : c ∈ l) (hne : ∀ x ∈ l, x ++ "_hhmm" ≠ c)
    (hv : getVal r c = some (Value.num q)) :
    getVal (l.foldl keepStep r) (c ++ "_hhmm") = some (Value.str (decimalToTime q)) := by
  induction l generalizing r with
  | nil => cases hmem
  | cons x rest ih =>
      rw [List.foldl_cons]
      by_cases hx : x = c
      · subst hx
        have hstep : keepStep r x = setKey r (x ++ "_hhmm") (Value.str (decimalToTime q)) := by
          rw [keepStep, hv]
        rw [hstep]
        by_cases hrest : x ∈ rest
        · apply ih _ hrest (fun y hy => hne y (by simp [hy]))
          rw [getVal_setKey_ne _ _ _ _ (Ne.symm (hne x (by simp)))]
          exact hv
        · rw [getVal_foldl_keepStep_of_ne rest _ _
            (fun y hy heq => hrest (by rw [append_hhmm_inj heq] at hy; exact hy))]
          exact getVal_setKey_self _ _ _
      · have hmem2 : c ∈ rest := by
          rcases List.mem_cons.mp hmem with h | h
          · exact absurd h.symm hx
          · exact h
        have hpres : getVal (keepStep r x) c = getVal r c :=
          getVal_keepStep_ne _ _ _ (hne x (by simp))
        exact ih _ hmem2 (fun y hy => hne y (by simp [hy])) (hpres.trans hv)

lemma getVal_foldl_keepStep_no_derived (l : List String) (r : Row) (c : String)
    (hnn : ∀ q : ℚ, getVal r c ≠ some (Value.num q))
    (habs : getVal r (c ++ "_hhmm") = none)
    (hne : ∀ x ∈ l, x ++ "_hhmm" ≠ c) :
    getVal (l.foldl keepStep r) (c ++ "_hhmm") = none := by
  induction l generalizing r with
  | nil => exact habs
  | cons x rest ih =>
      rw [List.foldl_cons]
      by_cases hx : x = c
      · subst hx
        have hstep : keepStep r x = r := by
          rw [keepStep]
          cases hv : getVal r x with
          | none => rfl
          | some v =>
              cases v with
              | num q => exact absurd hv (hnn q)
              | str s => rfl
              | null => rfl
        rw [hstep]
        exact ih _ hnn habs (fun y hy => hne y (by simp [hy]))
      · refine ih _ ?_ ?_ (fun y hy => hne y (by simp [hy]))
        · intro q
          rw [getVal_keepStep_ne _ _ _ (hne x (by simp))]
          exact hnn q
        · rw [getVal_keepStep_ne _ _ _
            (fun heq => hx (append_hhmm_inj heq))]
          exact habs

lemma convertRowStep_true_eq (r : Row) (h : List String) (x : String) :
    convertRowStep true (r, h) x = (keepStep r x, hdrStep r h x) := by
  rw [convertRowStep, keepStep, hdrStep, isNumAt]
  cases hv : getVal r x with
  | none => rfl
  | some v => cases v <;> simp

lemma foldl_convertRowStep_true_fst (l : List String) (r : Row) (h : List String) :
    (l.foldl (convertRowStep true) (r, h)).1 = l.foldl keepStep r := by
  induction l generalizing r h with
  | nil => rfl
  | cons x rest ih =>
      rw [List.foldl_cons, convertRowStep_true_eq, List.foldl_cons]
      exact ih _ _

lemma foldl_convertRowStep_true_snd (l : List String) (r : Row) (h : List String)
    (hfr : ∀ x ∈ l, ∀ y ∈ l, y ++ "_hhmm" ≠ x) :
    (l.foldl (convertRowStep true) (r, h)).2 = dedupAppend h (rowDerivedNames l r) := by
  induction l generalizing r h with
  | nil => rfl
  | cons x rest ih =>
      rw [List.foldl_cons, convertRowStep_true_eq,
        ih _ _ (fun a ha b hb => hfr a (by simp [ha]) b (by simp [hb]))]
      have hfilter : rowDerivedNames rest (keepStep r x) = rowDerivedNames rest r := by
        rw [rowDerivedNames, rowDerivedNames]
        congr 1
        apply List.filter_congr
        intro c hc
        rw [isNumAt, isNumAt,
          getVal_keepStep_ne _ _ _ (hfr c (by simp [hc]) x (by simp))]
      rw [hfilter]
      cases hnum : isNumAt r x with
      | false =>
          have hd1 : hdrStep r h x = h := by simp [hdrStep, hnum]
          have hd2 : rowDerivedNames (x :: rest) r = rowDerivedNames rest r := by
            rw [rowDerivedNames, rowDerivedNames, List.filter_cons]
            simp [hnum]
          rw [hd1, hd2]
      | true =>
          have hd1 : hdrStep r h x =
              if (x ++ "_hhmm") ∈ h then h else h ++ [x ++ "_hhmm"] := by
            simp [hdrStep, hnum]
          have hd2 : rowDerivedNames (x :: rest) r =
              (x ++ "_hhmm") :: rowDerivedNames rest r := by
            rw [rowDerivedNames, rowDerivedNames, List.filter_cons]
            simp [hnum]
          rw [hd1, hd2, dedupAppend_cons]

lemma dedupAppend_append (h l1 l2 : List String) :
    dedupAppend (dedupAppend h l1) l2 = dedupAppend h (l1 ++ l2) := by
  rw [dedupAppend, dedupAppend, dedupAppend, List.foldl_append]

lemma dedupAppend_nodup (h : List String) (l : List String) (hh : h.Nodup) :
    (dedupAppend h l).Nodup := by
  induction l generalizing h with
  | nil => exact hh
  | cons x rest ih =>
      rw [dedupAppend, List.foldl_cons, ← dedupAppend]
      apply ih
      by_cases hx : x ∈ h
      · simpa [hx] using hh
      · simp [hx, List.nodup_append, hh]

lemma convertCSVColumns_true (data : List Row) (cols : List String)
    (hfr : ∀ x ∈ cols, ∀ y ∈ cols, y ++ "_hhmm" ≠ x) :
    convertCSVColumns data cols true =
      (data.map (fun r => cols.foldl keepStep r),
       dedupAppend [] ((data.map (fun r => rowDerivedNames cols r)).flatten)) := by
  have haux : ∀ (l : List Row) (a : List Row) (h : List String),
      l.foldl (fun acc row =>
        let out := cols.foldl (convertRowStep true) (row, acc.2)
        (acc.1 ++ [out.1], out.2)) (a, h) =
      (a ++ l.map (fun r => cols.foldl keepStep r),
       dedupAppend h ((l.map (fun r => rowDerivedNames cols r)).flatten)) := by
    intro l
    induction l with
    | nil => intro a h; simp [dedupAppend]
    | cons row t ih =>
        intro a h
        rw [List.foldl_cons]
        have hstep : (let out := cols.foldl (convertRowStep true) (row, (a, h).2)
            ((a, h).1 ++ [out.1], out.2)) =
            (a ++ [cols.foldl keepStep row], dedupAppend h (rowDerivedNames cols row)) := by
          show (a ++ [(cols.foldl (convertRowStep true) (row, h)).1],
              (cols.foldl (convertRowStep true) (row, h)).2) = _
          rw [foldl_convertRowStep_true_fst, foldl_convertRowStep_true_snd _ _ _ hfr]
        rw [hstep, ih]
        rw [List.map_cons, List.map_cons, List.flatten_cons, ← dedupAppend_append]
        simp
  rw [convertCSVColumns]
  rw [haux data [] []]
  simp

/-- C7 counterexample: with selected columns ["A", "A_hhmm"] and a row
holding numbers at both, converting column "A" writes "05:00" under the
derived key "A_hhmm", clobbering the original value 3 of the selected column
"A_hhmm" — refuting the claim that the original value at every selected
column is preserved in every output row. -/
theorem C7_keep_original_counterexample :
    getVal (((convertCSVColumns [[("A", Value.num 5), ("A_hhmm", Value.num 3)]]
        ["A", "A_hhmm"] true).1).headD []) "A_hhmm" ≠
      getVal [("A", Value.num 5), ("A_hhmm", Value.num 3)] "A_hhmm" := by
  with_unfolding_all decide

/-- C7 amended: provided no selected column's derived name "c_hhmm" is itself
a selected column, and no input row already holds such a derived key, the
keepOriginal conversion preserves every selected column's original value in
every output row, adds "c_hhmm" with the clock string exactly where the
selected column holds a number, adds no derived key where it does not, records
each derived name exactly once in newHeaders in row-major first-production
order, and serialization appends the derived headers after the existing ones. -/
theorem C7_keep_original_amended (data : List Row) (cols : List String)
    (hf1 : ∀ c ∈ cols, (c ++ "_hhmm") ∉ cols)
    (hf2 : ∀ c ∈ cols, ∀ r ∈ data, getVal r (c ++ "_hhmm") = none) :
    (convertCSVColumns data cols true).1 = data.map (fun r => cols.foldl keepStep r) ∧
    (∀ r ∈ data, ∀ c ∈ cols, getVal (cols.foldl keepStep r) c = getVal r c) ∧
    (∀ r ∈ data, ∀ c ∈ cols, ∀ q : ℚ, getVal r c = some (Value.num q) →
      getVal (cols.foldl keepStep r) (c ++ "_hhmm") = some (Value.str (decimalToTime q))) ∧
    (∀ r ∈ data, ∀ c ∈ cols, (∀ q : ℚ, getVal r c ≠ some (Value.num q)) →
      getVal (cols.foldl keepStep r) (c ++ "_hhmm") = none) ∧
    (convertCSVColumns data cols true).2 = derivedHeadersSpec data cols ∧
    (convertCSVColumns data cols true).2.Nodup ∧
    (∀ hs : List String,
      convertToCSVHeaders hs (convertCSVColumns data cols true).2 =
        hs ++ (convertCSVColumns data cols true).2) := by
  have hfr : ∀ x ∈ cols, ∀ y ∈ cols, y ++ "_hhmm" ≠ x := by
    intro x hx y hy heq
    exact hf1 y hy (heq ▸ hx)
  have hmain := convertCSVColumns_true data cols hfr
  refine ⟨by rw [hmain], ?_, ?_, ?_, ?_, ?_, ?_⟩
  · intro r _ c hc
    exact getVal_foldl_keepStep_of_ne cols r c (fun x hx => hfr c hc x hx)
  · intro r _ c hc q hv
    exact getVal_foldl_keepStep_derived cols r c q hc (fun x hx => hfr c hc x hx) hv
  · intro r hr c hc hnn
    exact getVal_foldl_keepStep_no_derived cols r c hnn (hf2 c hc r hr)
      (fun x hx => hfr c hc x hx)
  · rw [hmain]
    rfl
  · rw [hmain]
    exact dedupAppend_nodup [] _ List.nodup_nil
  · intro hs
    rw [convertToCSVHeaders]
    by_cases hlen : (convertCSVColumns data cols true).2.length > 0
    · rw [if_pos hlen]
    · rw [if_neg hlen]
      have hnil : (convertCSVColumns data cols true).2 = [] :=
        List.eq_nil_of_length_eq_zero (Nat.eq_zero_of_not_pos hlen)
      rw [hnil, List.append_nil]

/-- C7 witness: the amended theorem applied to a two-row table with selected
column "Hours": the numeric row gains "Hours_hhmm" with the clock string,
the non-numeric row does not, and newHeaders is exactly ["Hours_hhmm"]. -/
theorem C7_keep_original_witness :
    (∀ c ∈ (["Hours"] : List String), (c ++ "_hhmm") ∉ (["Hours"] : List String)) ∧
    (convertCSVColumns
        [[("Hours", Value.num 7), ("Task", Value.str "Dev")], [("Hours", Value.str "n/a")]]
        ["Hours"] true).2 =
      derivedHeadersSpec
        [[("Hours", Value.num 7), ("Task", Value.str "Dev")], [("Hours", Value.str "n/a")]]
        ["Hours"] :=
  ⟨by decide,
   (C7_keep_original_amended
      [[("Hours", Value.num 7), ("Task", Value.str "Dev")], [("Hours", Value.str "n/a")]]
      ["Hours"] (by decide) (by with_unfolding_all decide)).2.2.2.2.1⟩

/-! ### Delimited-text ingestion keying -/

/-- C8: with the duplicate raw header row ["Hours", "Hours"] and the data row
[1, 2], the remap stores the LAST duplicate column's value under every
deduplicated name: both "Hours" and "Hours (2)" receive 2, and the first
column's own value 1 is not stored under "Hours" — the positional keying the
claim states does not happen.  (code_bug evidence.) -/
theorem C8_duplicate_header_remap :
    parseCSVRows ["Hours", "Hours"] [[Value.num 1, Value.num 2]] =
      [[("Hours", Value.num 2), ("Hours (2)", Value.num 2)]] ∧
    getVal ((parseCSVRows ["Hours", "Hours"] [[Value.num 1, Value.num 2]]).headD [])
      "Hours" ≠ some (Value.num 1) := by
  with_unfolding_all decide

end BirtConvert
